import Mathlib

/-!
Verification of the `settings` configuration library.

The development shallowly embeds the library's core:
  * raw configuration values (`interface{}` / `map[string]interface{}`),
  * the `Source` abstraction (`MapSource`, `PrefixSource`, `MultiSource`,
    `NewMapSource`, `NewEnvSource`) from source.go,
  * the typed `Setting` value model and its cast-and-set operation from
    setting.go (with the spf13/cast primitives modelled from their
    documented behaviour: each `To<T>E` function returns the target
    type's zero value together with a non-nil error on failure),
  * the loader (`Load`, `LoadGroups`) from loader.go,
  * the reflective struct-to-Group converter (`Convert`) from component.go,
  * component contract enforcement (`VerifyComponent`, `NewComponent`)
    from component.go, with Go's `reflect` type universe abstracted to
    type names and an arbitrary convertibility relation.

Go maps are modelled as association lists looked up by first match and
updated in place; Go's `strings.ToLower` is modelled on ASCII letters,
which is the alphabet the library's tests and documentation use.
-/

namespace SettingsV

/-- Raw configuration values: the subset of Go's `interface{}` universe
that the sources produce (JSON/YAML/ENV decode to nested string-keyed
maps whose leaves are strings, numbers, booleans, lists or null). -/
inductive RawValue where
  | vnull
  | vstr (s : String)
  | vbool (b : Bool)
  | vint (n : Int)
  | vlist (xs : List RawValue)
  | vmap (entries : List (String × RawValue))

/-- Go `map[string]interface{}`, as an association list. -/
abbrev RawMap := List (String × RawValue)

/-- ASCII lower-casing of one character, the behaviour of
`strings.ToLower` on the ASCII range. -/
def lowerChar (c : Char) : Char :=
  if c.toNat ≥ 65 ∧ c.toNat ≤ 90 then Char.ofNat (c.toNat + 32) else c

/-- Model of Go `strings.ToLower` (ASCII range). -/
def lowerStr (s : String) : String := ⟨s.data.map lowerChar⟩

/-- Go map read `m[k]`: first matching entry. -/
def mapLookup : RawMap → String → Option RawValue
  | [], _ => none
  | (k, v) :: rest, key => if k = key then some v else mapLookup rest key

/-- Go map write `m[k] = v`: replace the existing entry or append. -/
def mapWrite : RawMap → String → RawValue → RawMap
  | [], key, v => [(key, v)]
  | (k, v0) :: rest, key, v =>
    if k = key then (k, v) :: rest else (k, v0) :: mapWrite rest key v

mutual

/-- Recursive part of `lowerCaseMap` (source.go): nested maps reached
through map values have their keys lower-cased; values of any other
shape (including maps nested inside slices) are left untouched. -/
def lowerCaseVal : RawValue → RawValue
  | .vmap es => .vmap (lowerCaseEntries es)
  | x => x

/-- Lower-cases each key of one map level and recurses into map values,
the per-entry work of the `lowerCaseMap` stack loop in source.go. -/
def lowerCaseEntries : List (String × RawValue) → List (String × RawValue)
  | [] => []
  | (k, v) :: rest => (lowerStr k, lowerCaseVal v) :: lowerCaseEntries rest

end

/-- Model of `lowerCaseMap` (source.go): lower-case every key of the map and of
all nested maps reachable through map values. -/
def lowerCaseMap (m : RawMap) : RawMap := lowerCaseEntries m

/-- Model of `NewMapSource` (source.go): a `MapSource` is its backing map; the
constructor normalises all keys to lower case. -/
def NewMapSource (m : RawMap) : RawMap := lowerCaseMap m

/-- Outcome of running `MapSource.Get`: Go indexes
`path[len(path)-1]`, which panics (index out of range) when the path is
empty; `outOfRange` records that execution, `value` a normal return
where `none` models `(nil, false)` and `some v` models `(v, true)`. -/
inductive GetOutcome where
  | outOfRange
  | value (v : Option RawValue)

/-- Model of `MapSource.Get` (source.go): walk the map one lower-cased segment at
a time; every non-final segment must reach a nested map, the final
segment is looked up directly.  The empty path reproduces the source's
`path[len(path)-1]` out-of-range access. -/
def mapSourceGetGo (m : RawMap) : List String → GetOutcome
  | [] => .outOfRange
  | [k] => .value (mapLookup m (lowerStr k))
  | k :: rest =>
    match mapLookup m (lowerStr k) with
    | some (.vmap sub) => mapSourceGetGo sub rest
    | some _ => .value none
    | none => .value none

/-- A `Source` capability: `Get(path) -> (value, found)`, with `none`
for not-found and `some v` for a found raw value (`v = .vnull` models a
stored nil). -/
abbrev Source := List String → Option RawValue

/-- The `Source` view of a `MapSource`: total wrapper of
`mapSourceGetGo` in which the out-of-range execution yields no value. -/
def mapSourceGet (m : RawMap) : Source := fun path =>
  match mapSourceGetGo m path with
  | .outOfRange => none
  | .value v => v

/-- Model of `PrefixSource.Get` (source.go): prepend the fixed prefix and
delegate to the wrapped source. -/
def prefixSourceGet (pre : List String) (wrapped : Source) : Source :=
  fun path => wrapped (pre ++ path)

/-- Model of `MultiSource.Get` (source.go): try each member source in declared
order and return the first found value; the empty aggregate returns
not-found. -/
def multiSourceGet : List Source → Source
  | [], _ => none
  | s :: rest, path =>
    match s path with
    | some v => some v
    | none => multiSourceGet rest path

/-- One `NAME=value` entry of `NewEnvSource` (source.go).  The Go loop
walks the split path; at a non-final segment it creates a missing nested
map and descends, but when the existing entry is not a map (a
leaf/subtree conflict) the `continue` skips only that segment, leaving
`location` where it was, so the remaining segments are inserted relative
to the deepest map reached.  The final segment is always written. -/
def envInsert : RawMap → List String → String → RawMap
  | m, [], _ => m
  | m, [last], value => mapWrite m last (.vstr value)
  | m, part :: rest, value =>
    match mapLookup m part with
    | some (.vmap sub) => mapWrite m part (.vmap (envInsert sub rest value))
    | some _ => envInsert m rest value
    | none => mapWrite m part (.vmap (envInsert [] rest value))

/-- Splits a character list on a delimiter, keeping empty pieces: the
list analogue of Go `strings.Split`. -/
def splitChars (c : Char) : List Char → List (List Char)
  | [] => [[]]
  | a :: rest =>
    match splitChars c rest with
    | [] => if a = c then [[], []] else [[a]]
    | h :: t => if a = c then [] :: h :: t else (a :: h) :: t

/-- Rejoins pieces with the delimiter, inverse of `splitChars`. -/
def joinChars (c : Char) : List (List Char) → List Char
  | [] => []
  | [l] => l
  | l :: rest => l ++ c :: joinChars c rest

/-- Model of Go `strings.SplitN(s, "=", 2)` restricted to its use in
`NewEnvSource`: the text before the first `=` and everything after it,
or `none` when the string contains no `=`. -/
def splitEq (s : String) : Option (String × String) :=
  match splitChars '=' s.data with
  | [] => none
  | [_] => none
  | p :: rest => some (⟨p⟩, ⟨joinChars '=' rest⟩)

/-- Model of Go `strings.Split(name, "_")`. -/
def splitUnderscore (s : String) : List String :=
  (splitChars '_' s.data).map (fun l => ⟨l⟩)

/-- Builds the nested map of `NewEnvSource` (source.go) entry by entry,
failing on an entry without `=`. -/
def envBuild : RawMap → List String → Except String RawMap
  | m, [] => .ok m
  | m, envStr :: rest =>
    match splitEq envStr with
    | none => .error ("failed to parse variable " ++ envStr)
    | some (name, value) => envBuild (envInsert m (splitUnderscore name) value) rest

/-- Model of `NewEnvSource` (source.go): split each `NAME=value` on `_` into a
path, build the nested map, and hand it to `NewMapSource`. -/
def NewEnvSource (env : List String) : Except String RawMap :=
  (envBuild [] env).map NewMapSource

/-- Model of Go `strconv.ParseBool`: the exact boolean literal set it
accepts. -/
def parseBoolLit (s : String) : Option Bool :=
  if s = "1" ∨ s = "t" ∨ s = "T" ∨ s = "TRUE" ∨ s = "true" ∨ s = "True" then some true
  else if s = "0" ∨ s = "f" ∨ s = "F" ∨ s = "FALSE" ∨ s = "false" ∨ s = "False" then some false
  else none

/-- Decimal digit test. -/
def isDigitCh (c : Char) : Bool := c.toNat ≥ 48 ∧ c.toNat ≤ 57

/-- Digit-list value. -/
def digitsVal : List Char → Int
  | [] => 0
  | c :: rest => (c.toNat - 48 : Int) * (10 : Int) ^ rest.length + digitsVal rest

/-- Model of the numeric-string parsing used by the cast library
(`strconv.ParseInt`), restricted to optionally signed decimal literals:
a non-numeric string such as `"false"` yields `none`. -/
def parseIntStr (s : String) : Option Int :=
  match s.data with
  | [] => none
  | '-' :: rest => if rest ≠ [] ∧ rest.all isDigitCh then some (-(digitsVal rest)) else none
  | l => if l.all isDigitCh then some (digitsVal l) else none

/-- Modelled from the spec: the external `cast.ToStringE` primitive
(spf13/cast is not part of this repository).  Strings, booleans,
numbers and nil convert; aggregate shapes fail.  Following the Go cast
API, the target type's zero value is returned together with the
error. -/
def castToStringE : RawValue → String × Option String
  | .vstr s => (s, none)
  | .vbool b => (cond b "true" "false", none)
  | .vint n => (toString n, none)
  | .vnull => ("", none)
  | .vlist _ => ("", some "unable to cast slice of type to string")
  | .vmap _ => ("", some "unable to cast map of type to string")

/-- Modelled from the spec: the external `cast.ToBoolE` primitive.
Booleans pass through, strings go through the boolean-literal grammar,
integers test non-zero, nil is false; anything else fails, returning
the zero value `false` together with the error. -/
def castToBoolE : RawValue → Bool × Option String
  | .vbool b => (b, none)
  | .vnull => (false, none)
  | .vint n => (decide (n ≠ 0), none)
  | .vstr s =>
    match parseBoolLit s with
    | some b => (b, none)
    | none => (false, some ("strconv.ParseBool: parsing " ++ s ++ ": invalid syntax"))
  | _ => (false, some "unable to cast to bool")

/-- Modelled from the spec: the external `cast.ToIntE` primitive.
Integers pass through, strings go through numeric parsing, booleans map
to 1/0, nil to 0; anything else fails, returning the zero value `0`
together with the error. -/
def castToIntE : RawValue → Int × Option String
  | .vint n => (n, none)
  | .vbool b => (cond b 1 0, none)
  | .vnull => (0, none)
  | .vstr s =>
    match parseIntStr s with
    | some n => (n, none)
    | none => (0, some ("unable to cast " ++ s ++ " of type string to int"))
  | _ => (0, some "unable to cast to int")

/-- Model of Go `strings.Fields` as used on configuration strings:
whitespace-delimited words (the delimiter is modelled as the space
character, the one the library's inputs use). -/
def fieldsStr (s : String) : List String :=
  ((splitChars ' ' s.data).filter (· ≠ [])).map (fun l => ⟨l⟩)

/-- Modelled from the spec: the external `cast.ToStringSliceE`
primitive.  A native sequence converts element-wise, a single string is
split on whitespace; other shapes fail, returning the empty slice
together with the error. -/
def castToStringSliceE : RawValue → List String × Option String
  | .vlist xs => (xs.map (fun x => (castToStringE x).1), none)
  | .vstr s => (fieldsStr s, none)
  | _ => ([], some "unable to cast to []string")

/-- Modelled from the spec: the element loop of the external
`cast.ToIntSliceE` primitive applied to a string slice: every element
must parse as an integer, and the first failure aborts with the empty
slice and that element's error. -/
def intSliceFromStrings : List String → List Int × Option String
  | [] => ([], none)
  | s :: rest =>
    match parseIntStr s with
    | none => ([], some ("unable to cast " ++ s ++ " of type string to int"))
    | some n =>
      match intSliceFromStrings rest with
      | (_, some e) => ([], some e)
      | (ns, none) => (n :: ns, none)

/-- The typed current value of a `Setting` (setting.go), for the
variants the claims exercise: bool, int, string, string slice and int
slice. -/
inductive SettingVal where
  | vb (b : Bool)
  | vi (n : Int)
  | vs (s : String)
  | vsl (l : List String)
  | vil (l : List Int)

/-- Model of `SetValue` (setting.go), per variant.  Each scalar variant executes
`*s.XValue, err = cast.ToXE(v); return err`: the cast result is
assigned unconditionally, so a failed cast stores the zero value.  The
int-slice variant first runs the interim string-slice cast and returns
early — leaving the stored value untouched — when that step fails. -/
def setValue : SettingVal → RawValue → SettingVal × Option String
  | .vs _, raw => ((.vs (castToStringE raw).1), (castToStringE raw).2)
  | .vb _, raw => ((.vb (castToBoolE raw).1), (castToBoolE raw).2)
  | .vi _, raw => ((.vi (castToIntE raw).1), (castToIntE raw).2)
  | .vsl _, raw => ((.vsl (castToStringSliceE raw).1), (castToStringSliceE raw).2)
  | .vil old, raw =>
    match castToStringSliceE raw with
    | (_, some e) => (.vil old, some ("int slice parsing failed at interim string step: " ++ e))
    | (tmp, none) => ((.vil (intSliceFromStrings tmp).1), (intSliceFromStrings tmp).2)

/-- A `Setting`: immutable name and description plus the typed current
value (setting.go). -/
structure SettingE where
  name : String
  desc : String
  val : SettingVal

/-- Model of `Load` (loader.go): for each setting in order, look its name up in
the source; a miss keeps the current value, a found value goes through
`SetValue`, and the first cast failure aborts the whole load with an
error naming the setting. -/
def Load (src : Source) : List SettingE → Except String (List SettingE)
  | [] => .ok []
  | st :: rest =>
    match src [st.name] with
    | none => (Load src rest).map (st :: ·)
    | some raw =>
      match setValue st.val raw with
      | (_, some msg) => .error ("failed to load setting " ++ st.name ++ " due to: " ++ msg)
      | (v', none) => (Load src rest).map ({ st with val := v' } :: ·)

/-- The default `Group` implementation `SettingGroup` (setting.go): a
named, described node holding child groups and settings. -/
inductive SettingGroup where
  | mk (name desc : String) (groups : List SettingGroup) (settings : List SettingE)

/-- Group name accessor. -/
def SettingGroup.name : SettingGroup → String
  | .mk n _ _ _ => n

mutual

/-- One step of `LoadGroups` (loader.go) at a given ancestor path: load
the group's own settings through a `PrefixSource` scoped to the path,
wrapping a failure with the group's name, then process the child groups
with the path extended by each child's name.  The source drives this
with an explicit LIFO stack of (path, group) pairs; every (path, group)
pair it loads is loaded here too, and a settings failure in a group
preempts that group's children exactly as in the source. -/
def loadGroupAt (src : Source) (path : List String) : SettingGroup → Except String SettingGroup
  | .mk n d gs ss =>
    match Load (prefixSourceGet path src) ss with
    | .error e => .error ("failed to load group " ++ n ++ " due to: " ++ e)
    | .ok ss' =>
      match loadChildGroups src path gs with
      | .error e => .error e
      | .ok gs' => .ok (.mk n d gs' ss')

/-- Processes a list of child groups, extending the parent path with
each child's name. -/
def loadChildGroups (src : Source) (parentPath : List String) :
    List SettingGroup → Except String (List SettingGroup)
  | [] => .ok []
  | g :: rest =>
    match loadGroupAt src (parentPath ++ [g.name]) g with
    | .error e => .error e
    | .ok g' =>
      match loadChildGroups src parentPath rest with
      | .error e => .error e
      | .ok rest' => .ok (g' :: rest')

end

/-- Model of `LoadGroups` (loader.go): load every group of the forest, each
setting looked up under the concatenation of its ancestor group names
(root first) followed by its own name. -/
def LoadGroups (src : Source) (gs : List SettingGroup) : Except String (List SettingGroup) :=
  loadChildGroups src [] gs

/-- A Go value as seen by the converter's reflection walk
(component.go): leaves of the kinds the claims exercise, a typed nil
pointer (whose `reflect.Indirect` is the invalid value), an unsupported
field kind, a pointer to a struct (addressable through the pointer) and
a plain struct value (whose copy taken by `.Interface()` is not
addressable).  A struct carries its type name, its optional
`Name()`/`Description()` capability overrides, and its fields as
(name, anonymous, description-tag, value) tuples. -/
inductive GoVal where
  | leafInt (n : Int)
  | leafStr (s : String)
  | leafBool (b : Bool)
  | nilPtrTo (tyName : String)
  | unsupported (kindName : String)
  | ptrStruct (tyName : String) (nameOver descOver : Option String)
      (fields : List (String × Bool × String × GoVal))
  | structDirect (tyName : String) (nameOver descOver : Option String)
      (fields : List (String × Bool × String × GoVal))

/-- A struct field: name, anonymous (embedded) flag, `description` tag,
and current value. -/
abbrev GoFieldT := String × Bool × String × GoVal

mutual

/-- Size measure over converter inputs, for termination of the
field worklist. -/
def GoVal.msize : GoVal → Nat
  | .ptrStruct _ _ _ fs => 1 + msizeFields fs
  | .structDirect _ _ _ fs => 1 + msizeFields fs
  | _ => 1

/-- Size measure over field lists. -/
def msizeFields : List GoFieldT → Nat
  | [] => 0
  | (_, _, _, v) :: rest => 1 + v.msize + msizeFields rest

end

theorem msizeFields_append (a b : List GoFieldT) :
    msizeFields (a ++ b) = msizeFields a + msizeFields b := by
  induction a with
  | nil => simp [msizeFields]
  | cons f rest ih =>
    obtain ⟨n, an, tg, v⟩ := f
    simp [msizeFields, ih]
    omega

theorem msizeFields_reverse (a : List GoFieldT) :
    msizeFields a.reverse = msizeFields a := by
  induction a with
  | nil => rfl
  | cons f rest ih =>
    obtain ⟨n, an, tg, v⟩ := f
    simp [List.reverse_cons, msizeFields_append, msizeFields, ih]
    omega

/-- The package-name strip applied to a struct's type name
(component.go): split on `.` and keep the last part. -/
def nameFromType (tn : String) : String :=
  match (splitChars '.' tn.data).reverse with
  | [] => tn
  | l :: _ => ⟨l⟩

mutual

/-- The per-struct body of `Convert` (component.go): resolve the group name
(the `Name()` capability override, else the type name with the package
prefix stripped) and description (`Description()` override, else
empty), then process the fields through the explicit work stack.  The
source seeds the stack with fields 0..n-1 of a slice popped from the
end, so fields are processed in reverse declaration order; the
head-popped list is therefore seeded with the reversed field list. -/
def convertStructGo (tyName : String) (nameOver descOver : Option String)
    (fields : List GoFieldT) : Except String SettingGroup :=
  convertFields (nameOver.getD (nameFromType tyName)) (descOver.getD "")
    fields.reverse [] []
  termination_by msizeFields fields + 1
  decreasing_by
    simp [msizeFields_reverse]

/-- The field work stack of `Convert` (component.go).  An embedded
(anonymous) struct field is flattened: its own fields are pushed in
place of a sub-group.  A nil pointer field is rejected as
unaddressable.  A non-aggregate field becomes a Setting seeded with the
field's current value and `description` tag, appended to the group's
setting list; an unsupported kind fails naming the group and field.  A
pointer-to-struct field recurses, appending a child group; a plain
struct field recurses onto an unaddressable copy and therefore fails as
the source's recursive `Convert` call does. -/
def convertFields (gname gdesc : String) (stack : List GoFieldT)
    (groups : List SettingGroup) (settings : List SettingE) : Except String SettingGroup :=
  match stack with
  | [] => .ok (.mk gname gdesc groups settings)
  | (fname, anon, tag, fv) :: rest =>
    match fv with
    | .leafInt n => convertFields gname gdesc rest groups (settings ++ [⟨fname, tag, .vi n⟩])
    | .leafStr s => convertFields gname gdesc rest groups (settings ++ [⟨fname, tag, .vs s⟩])
    | .leafBool b => convertFields gname gdesc rest groups (settings ++ [⟨fname, tag, .vb b⟩])
    | .nilPtrTo ty =>
      .error (ty ++ " field " ++ gname ++ "." ++ fname ++ " must be a pointer type")
    | .unsupported k =>
      .error ("failed to convert " ++ gname ++ "." ++ fname ++ " due to: unknown setting type " ++ k)
    | .ptrStruct ty no dov fs =>
      if anon then
        convertFields gname gdesc (fs.reverse ++ rest) groups settings
      else
        match convertStructGo ty no dov fs with
        | .error e => .error e
        | .ok sub => convertFields gname gdesc rest (groups ++ [sub]) settings
    | .structDirect ty _ _ fs =>
      if anon then
        convertFields gname gdesc (fs.reverse ++ rest) groups settings
      else
        .error ("unaddressable value " ++ ty ++ " given to Convert")
  termination_by msizeFields stack
  decreasing_by
    all_goals simp [msizeFields, GoVal.msize, msizeFields_append, msizeFields_reverse] <;> omega

end

/-- Model of `Convert` (component.go): `none` models the untyped nil interface;
a non-struct value and a non-addressable (non-pointer) struct are
rejected; a pointer to a struct is converted.  A typed nil pointer at
the top level makes the source panic in `reflect` (`Value.Type` on the
zero value); that execution is recorded as the error below and is not
exercised by any claim. -/
def Convert : Option GoVal → Except String SettingGroup
  | none => .error "nil value given to Convert"
  | some (.ptrStruct tn no dov fs) => convertStructGo tn no dov fs
  | some (.structDirect tn _ _ _) => .error ("unaddressable value " ++ tn ++ " given to Convert")
  | some (.leafInt _) => .error "non-struct value int given to Convert"
  | some (.leafStr _) => .error "non-struct value string given to Convert"
  | some (.leafBool _) => .error "non-struct value bool given to Convert"
  | some (.unsupported k) => .error ("non-struct value " ++ k ++ " given to Convert")
  | some (.nilPtrTo _) => .error "panic: reflect: call of reflect.Value.Type on zero Value"

/-- A method signature as seen by `reflect`: argument type names and
result type names (the receiver is not part of a `reflect.Value`
method's arguments). -/
structure MethodSig where
  ins : List String
  outs : List String

/-- Method lookup by name (`reflect.Value.MethodByName`); Go method
sets cannot contain duplicate names, so first match is the match. -/
def lookupMethod : List (String × MethodSig) → String → Option MethodSig
  | [], _ => none
  | (n, sig) :: rest, key => if n = key then some sig else lookupMethod rest key

/-- Model of `VerifyComponent` (component.go), with Go's `reflect` types
abstracted to their names and convertibility abstracted as the relation
`conv`; `ctxTy` is the type of `context.Background()`.  The checks run
in source order: presence of `Settings` and `New`, the `Settings`
shape, the `New` shape, context convertibility, `Settings`-output
convertibility, and the `error` name of `New`'s second result. -/
def VerifyComponent (conv : String → String → Bool) (ctxTy objTy : String)
    (methods : List (String × MethodSig)) : Option String :=
  match lookupMethod methods "Settings", lookupMethod methods "New" with
  | none, _ => some ("type " ++ objTy ++ " does not have a `Settings() T` method")
  | some _, none => some ("type " ++ objTy ++ " does not have a `New(ctx, T) (T2, error)` method")
  | some sm, some nm =>
    match sm.ins with
    | _ :: _ => some ("method Settings for " ++ objTy ++ " must not take arguments")
    | [] =>
      match sm.outs with
      | [smOut] =>
        match nm.ins with
        | [in0, in1] =>
          match nm.outs with
          | [_, out1] =>
            if ¬ conv ctxTy in0 then
              some ("method New for " ++ objTy ++ " must accept context as the first argument")
            else if ¬ conv smOut in1 then
              some ("method New for " ++ objTy ++ " must accept an instance of Settings() return value")
            else if out1 ≠ "error" then
              some ("method New for " ++ objTy ++ " must return an error as the second value")
            else none
          | _ => some ("method New for " ++ objTy ++ " must return only two values")
        | _ => some ("method New for " ++ objTy ++ " must take only two arguments")
      | _ => some ("method Settings for " ++ objTy ++ " must return only one value")

/-- The (indirected) result produced by a component's `New` method:
its type name and an abstract payload. -/
structure GoRes where
  tyName : String
  payload : String

/-- The destination argument of `NewComponent`: a non-pointer value, a
nil pointer, or a valid pointer whose addressed cell currently holds a
value of the pointed-to type. -/
inductive Destination where
  | nonPtr (tyName : String)
  | nilPtr (tyName : String)
  | ptr (tyName : String) (cell : GoRes)

/-- A component-contract object: its type name, its method set (for
verification), the value its `Settings` method returns, and its `New`
behaviour as a function of the loaded configuration (the populated
settings are represented by the group list `LoadGroups` produces). -/
structure ComponentObj where
  objTy : String
  methods : List (String × MethodSig)
  settingsVal : Option GoVal
  newFn : List SettingGroup → Except String GoRes

/-- Model of `NewComponent` (component.go): reject a non-pointer or nil
destination, verify the contract, convert the `Settings()` value to a
group, load it, invoke `New`, and only then — after `New` succeeded and
its result type converts to the destination's element type — store the
result through the destination pointer.  The returned pair is
(error, destination after the call). -/
def NewComponent (conv : String → String → Bool) (ctxTy : String) (src : Source)
    (c : ComponentObj) (dst : Destination) : Option String × Destination :=
  match dst with
  | .nonPtr ty => (some ("destination " ++ ty ++ " must be a pointer type"), dst)
  | .nilPtr ty => (some ("destination " ++ ty ++ " cannot be nil. use new(T) to make a pointer"), dst)
  | .ptr dTy cell =>
    match VerifyComponent conv ctxTy c.objTy c.methods with
    | some e => (some e, .ptr dTy cell)
    | none =>
      match Convert c.settingsVal with
      | .error e => (some e, .ptr dTy cell)
      | .ok g =>
        match LoadGroups src [g] with
        | .error e => (some e, .ptr dTy cell)
        | .ok gs' =>
          match c.newFn gs' with
          | .error e => (some e, .ptr dTy cell)
          | .ok r =>
            if conv r.tyName dTy then (none, .ptr dTy r)
            else (some ("cannot convert " ++ r.tyName ++ " into " ++ dTy), .ptr dTy cell)

/-- Model of `GroupFromComponent` (component.go): verification and conversion
without loading or construction. -/
def GroupFromComponent (conv : String → String → Bool) (ctxTy : String)
    (c : ComponentObj) : Except String SettingGroup :=
  match VerifyComponent conv ctxTy c.objTy c.methods with
  | some e => .error e
  | none => Convert c.settingsVal

/-- Helper: `mapSourceGetGo` reads each path segment only through
`lowerStr`, so two paths with the same lower-cased segments are
indistinguishable to it, whatever the backing map. -/
theorem mapSourceGetGo_lower_eq (p₁ : List String) :
    ∀ (m : RawMap) (p₂ : List String), p₁.map lowerStr = p₂.map lowerStr →
      mapSourceGetGo m p₁ = mapSourceGetGo m p₂ := by
  induction p₁ with
  | nil =>
    intro m p₂ h
    have : p₂ = [] := by
      cases p₂ with
      | nil => rfl
      | cons a t => simp at h
    simp [this]
  | cons k rest ih =>
    intro m p₂ h
    cases p₂ with
    | nil => simp at h
    | cons k' rest' =>
      simp only [List.map_cons, List.cons.injEq] at h
      obtain ⟨hk, hrest⟩ := h
      cases rest with
      | nil =>
        have : rest' = [] := by
          cases rest' with
          | nil => rfl
          | cons a t => simp at hrest
        simp [this, mapSourceGetGo, hk]
      | cons r2 rtail =>
        cases rest' with
        | nil => simp at hrest
        | cons r2' rtail' =>
          simp only [mapSourceGetGo, hk]
          cases mapLookup m (lowerStr k') with
          | none => rfl
          | some v =>
            cases v with
            | vmap sub => exact ih sub (r2' :: rtail') hrest
            | vnull => rfl
            | vstr s => rfl
            | vbool b => rfl
            | vint n => rfl
            | vlist xs => rfl

/-- C7: for every `MapSource` built through `NewMapSource` (the
constructor all of `NewJSONSource`, `NewYAMLSource` and `NewEnvSource`
delegate to) and every non-empty path, `Get` returns the same
(value, found) outcome for any two paths whose segments differ only in
letter case: keys are lower-cased at construction and every lookup
lower-cases each segment. -/
theorem mapSource_get_case_insensitive (m : RawMap) (p₁ p₂ : List String)
    (hne : p₁ ≠ []) (hcase : p₁.map lowerStr = p₂.map lowerStr) :
    mapSourceGetGo (NewMapSource m) p₁ = mapSourceGetGo (NewMapSource m) p₂ :=
  mapSourceGetGo_lower_eq p₁ (NewMapSource m) p₂ hcase

/-- C7 witness: on the map `{"A": 1}` the paths `["a"]` and `["A"]`
resolve identically. -/
theorem mapSource_get_case_insensitive_witness :
    ["a"] ≠ ([] : List String)
    ∧ mapSourceGetGo (NewMapSource [("A", .vstr "1")]) ["a"]
        = mapSourceGetGo (NewMapSource [("A", .vstr "1")]) ["A"] := by
  refine ⟨by simp, mapSource_get_case_insensitive [("A", .vstr "1")] ["a"] ["A"] (by simp) ?_⟩
  simp [lowerStr, lowerChar]

/-- C9: `MapSource.Get` requires a non-empty path.  On the empty path
the source indexes `path[len(path)-1] = path[-1]`, out of bounds (a
runtime panic, the `outOfRange` outcome); on any non-empty path the
walk returns a normal (value, found) outcome. -/
theorem mapSourceGet_empty_path_out_of_range :
    (∀ m : RawMap, mapSourceGetGo m [] = .outOfRange)
    ∧ (∀ (m : RawMap) (p : List String), p ≠ [] →
        ∃ r, mapSourceGetGo m p = .value r) := by
  constructor
  · intro m; rfl
  · intro m p
    induction p generalizing m with
    | nil => intro h; exact absurd rfl h
    | cons k rest ih =>
      intro _
      cases rest with
      | nil => exact ⟨mapLookup m (lowerStr k), rfl⟩
      | cons r2 rtail =>
        simp only [mapSourceGetGo]
        cases mapLookup m (lowerStr k) with
        | none => exact ⟨none, rfl⟩
        | some v =>
          cases v with
          | vmap sub => exact ih sub (by simp)
          | vnull => exact ⟨none, rfl⟩
          | vstr s => exact ⟨none, rfl⟩
          | vbool b => exact ⟨none, rfl⟩
          | vint n => exact ⟨none, rfl⟩
          | vlist xs => exact ⟨none, rfl⟩

/-- C9 witness: the singleton path `["a"]` on the empty map yields a
normal outcome, not the out-of-range execution. -/
theorem mapSourceGet_empty_path_out_of_range_witness :
    mapSourceGetGo [] ["a"] ≠ .outOfRange := by
  obtain ⟨r, hr⟩ := mapSourceGet_empty_path_out_of_range.2 [] ["a"] (by simp)
  simp [hr]

/-- C4: `MultiSource.Get` tries the member sources in declared order
and returns the first found value — for `[A, B, C]` where `A` misses
the path but `B` and `C` both hold values, the result is `B`'s value —
and the empty `MultiSource` always returns not-found. -/
theorem multiSource_first_found (srcA srcB srcC : Source) (path : List String)
    (vB vC : RawValue) (hA : srcA path = none) (hB : srcB path = some vB)
    (hC : srcC path = some vC) :
    multiSourceGet [srcA, srcB, srcC] path = some vB
    ∧ ∀ q : List String, multiSourceGet [] q = none := by
  refine ⟨?_, fun q => rfl⟩
  simp [multiSourceGet, hA, hB]

/-- C4 witness: with map sources where the first lacks `"x"` and the
second and third hold `"B"` and `"C"`, lookup returns `"B"`. -/
theorem multiSource_first_found_witness :
    multiSourceGet
      [mapSourceGet [], mapSourceGet [("x", .vstr "B")], mapSourceGet [("x", .vstr "C")]]
      ["x"] = some (.vstr "B") :=
  (multiSource_first_found (mapSourceGet []) (mapSourceGet [("x", .vstr "B")])
    (mapSourceGet [("x", .vstr "C")]) ["x"] (.vstr "B") (.vstr "C")
    (by simp [mapSourceGet, mapSourceGetGo, mapLookup])
    (by simp [mapSourceGet, mapSourceGetGo, mapLookup, lowerStr, lowerChar])
    (by simp [mapSourceGet, mapSourceGetGo, mapLookup, lowerStr, lowerChar])).1

/-- C5: `Load` leaves every setting whose name the source does not
resolve at its existing value and such misses produce no error (on a
successful load the result has one entry per input and every missed
entry is returned unchanged); and when a found value fails to cast,
`Load` returns an error naming that setting, whatever settings follow
it in the list — the first casting failure aborts the batch before any
later `SetValue`. -/
theorem load_miss_keeps_default_and_aborts_on_failure :
    (∀ (src : Source) (settings res : List SettingE),
      Load src settings = .ok res →
        res.length = settings.length ∧
        ∀ (i : Nat) (st : SettingE), settings[i]? = some st →
          src [st.name] = none → res[i]? = some st)
    ∧ (∀ (src : Source) (pre : List SettingE) (bad : SettingE) (post : List SettingE)
        (loaded : List SettingE) (raw : RawValue) (msg : String),
        Load src pre = .ok loaded → src [bad.name] = some raw →
        (setValue bad.val raw).2 = some msg →
        Load src (pre ++ bad :: post)
          = .error ("failed to load setting " ++ bad.name ++ " due to: " ++ msg)) := by
  constructor
  · intro src settings
    induction settings with
    | nil =>
      intro res h
      simp only [Load] at h
      cases h
      exact ⟨rfl, by intro i st hst; simp at hst⟩
    | cons st rest ih =>
      intro res h
      simp only [Load] at h
      cases hsrc : src [st.name] with
      | none =>
        rw [hsrc] at h
        cases hrec : Load src rest with
        | error e => rw [hrec] at h; simp [Except.map] at h
        | ok t =>
          rw [hrec] at h
          simp only [Except.map] at h
          cases h
          obtain ⟨hlen, hidx⟩ := ih t hrec
          refine ⟨by simp [hlen], ?_⟩
          intro i st' hst' hmiss
          cases i with
          | zero => simpa using hst'
          | succ n =>
            simp only [List.getElem?_cons_succ] at hst' ⊢
            exact hidx n st' hst' hmiss
      | some raw =>
        rw [hsrc] at h
        dsimp only at h
        rcases hsv : setValue st.val raw with ⟨v', e⟩
        rw [hsv] at h
        cases e with
        | some m => simp at h
        | none =>
          cases hrec : Load src rest with
          | error e2 => rw [hrec] at h; simp [Except.map] at h
          | ok t =>
            rw [hrec] at h
            simp only [Except.map] at h
            cases h
            obtain ⟨hlen, hidx⟩ := ih t hrec
            refine ⟨by simp [hlen], ?_⟩
            intro i st' hst' hmiss
            cases i with
            | zero =>
              simp only [List.getElem?_cons_zero, Option.some.injEq] at hst'
              subst hst'
              rw [hmiss] at hsrc
              cases hsrc
            | succ n =>
              simp only [List.getElem?_cons_succ] at hst' ⊢
              exact hidx n st' hst' hmiss
  · intro src pre bad post
    induction pre with
    | nil =>
      intro loaded raw msg _ hbad hfail
      rcases hsv : setValue bad.val raw with ⟨v', e⟩
      rw [hsv] at hfail
      simp only at hfail
      subst hfail
      simp only [List.nil_append, Load, hbad, hsv]
    | cons st pre' ih =>
      intro loaded raw msg hok hbad hfail
      simp only [Load] at hok
      cases hsrc : src [st.name] with
      | none =>
        rw [hsrc] at hok
        cases hrec : Load src pre' with
        | error e => rw [hrec] at hok; simp [Except.map] at hok
        | ok t =>
          have := ih t raw msg hrec hbad hfail
          simp [List.cons_append, Load, hsrc, this, Except.map]
      | some raw' =>
        rw [hsrc] at hok
        dsimp only at hok
        rcases hsv : setValue st.val raw' with ⟨v', e⟩
        rw [hsv] at hok
        cases e with
        | some m => simp at hok
        | none =>
          cases hrec : Load src pre' with
          | error e2 => rw [hrec] at hok; simp [Except.map] at hok
          | ok t =>
            have := ih t raw msg hrec hbad hfail
            simp [List.cons_append, Load, hsrc, hsv, this, Except.map]

/-- C5 witness: loading `[a, b]` where the source misses `a` keeps
`a`'s default, and loading `[a, bad]` where `bad`'s found value cannot
cast aborts with an error naming `bad`, whatever follows. -/
theorem load_miss_keeps_default_and_aborts_on_failure_witness :
    ([⟨"a", "", .vi 1⟩, ⟨"b", "", .vi 3⟩] : List SettingE)[0]? = some ⟨"a", "", .vi 1⟩
    ∧ Load (mapSourceGet [("bad", .vstr "false")])
        ([⟨"a", "", .vi 1⟩] ++ ⟨"bad", "", .vi 2⟩ :: [⟨"later", "", .vi 3⟩])
        = .error "failed to load setting bad due to: unable to cast false of type string to int" := by
  constructor
  · have hload : Load (mapSourceGet [("b", .vstr "3")])
        [⟨"a", "", .vi 1⟩, ⟨"b", "", .vi 2⟩] = .ok [⟨"a", "", .vi 1⟩, ⟨"b", "", .vi 3⟩] := by
      simp [Load, mapSourceGet, mapSourceGetGo, mapLookup, lowerStr, lowerChar,
        setValue, castToIntE, parseIntStr, isDigitCh, digitsVal, Except.map]
    exact (load_miss_keeps_default_and_aborts_on_failure.1 _ _ _ hload).2 0 ⟨"a", "", .vi 1⟩
      (by simp) (by simp [mapSourceGet, mapSourceGetGo, mapLookup, lowerStr, lowerChar])
  · refine load_miss_keeps_default_and_aborts_on_failure.2
      (mapSourceGet [("bad", .vstr "false")]) [⟨"a", "", .vi 1⟩] ⟨"bad", "", .vi 2⟩
      [⟨"later", "", .vi 3⟩] [⟨"a", "", .vi 1⟩] (.vstr "false")
      "unable to cast false of type string to int" ?_ ?_ ?_
    · simp [Load, mapSourceGet, mapSourceGetGo, mapLookup, lowerStr, lowerChar, Except.map]
    · simp [mapSourceGet, mapSourceGetGo, mapLookup, lowerStr, lowerChar]
    · simp [setValue, castToIntE, parseIntStr, isDigitCh]

/-- C3: `LoadGroups` looks each setting up under the concatenation of
its ancestor group names followed by its own name: for group `outer`
containing group `inner` containing setting `leaf`, and any source
resolving `[outer, inner, leaf]` to a string, the leaf setting holds
that string after `LoadGroups([outer])`. -/
theorem loadGroups_concatenated_path (o i l d₁ d₂ d₃ old v : String) (src : Source)
    (hsrc : src [o, i, l] = some (.vstr v)) :
    LoadGroups src [.mk o d₁ [.mk i d₂ [] [⟨l, d₃, .vs old⟩]] []]
      = .ok [.mk o d₁ [.mk i d₂ [] [⟨l, d₃, .vs v⟩]] []] := by
  simp [LoadGroups, loadChildGroups, loadGroupAt, SettingGroup.name, Load,
    prefixSourceGet, hsrc, setValue, castToStringE, Except.map]

/-- C3 witness: a concrete map source populated at
`["outer", "inner", "leaf"]` fills the leaf setting. -/
theorem loadGroups_concatenated_path_witness :
    LoadGroups
      (mapSourceGet (NewMapSource
        [("outer", .vmap [("inner", .vmap [("leaf", .vstr "test")])])]))
      [.mk "outer" "" [.mk "inner" "" [] [⟨"leaf", "", .vs "fallback"⟩]] []]
      = .ok [.mk "outer" "" [.mk "inner" "" [] [⟨"leaf", "", .vs "test"⟩]] []] :=
  loadGroups_concatenated_path "outer" "inner" "leaf" "" "" "" "fallback" "test" _
    (by simp [mapSourceGet, mapSourceGetGo, mapLookup, NewMapSource, lowerCaseMap,
      lowerCaseEntries, lowerCaseVal, lowerStr, lowerChar])

/-- Helper: a failed `cast.ToIntE` carries the zero value `0`. -/
theorem castToIntE_error_zero (raw : RawValue) (msg : String)
    (h : (castToIntE raw).2 = some msg) : (castToIntE raw).1 = 0 := by
  cases raw with
  | vstr s =>
    simp only [castToIntE]
    cases hp : parseIntStr s <;> simp [hp] <;> simp [castToIntE, hp] at h
  | vnull => rfl
  | vbool b => simp [castToIntE] at h
  | vint n => simp [castToIntE] at h
  | vlist xs => rfl
  | vmap es => rfl

/-- Helper: a failed `cast.ToBoolE` carries the zero value `false`. -/
theorem castToBoolE_error_false (raw : RawValue) (msg : String)
    (h : (castToBoolE raw).2 = some msg) : (castToBoolE raw).1 = false := by
  cases raw with
  | vstr s =>
    simp only [castToBoolE]
    cases hp : parseBoolLit s <;> simp [hp] <;> simp [castToBoolE, hp] at h
  | vnull => rfl
  | vbool b => simp [castToBoolE] at h
  | vint n => simp [castToBoolE] at h
  | vlist xs => rfl
  | vmap es => rfl

/-- Helper: a failed `cast.ToStringE` carries the zero value `""`. -/
theorem castToStringE_error_empty (raw : RawValue) (msg : String)
    (h : (castToStringE raw).2 = some msg) : (castToStringE raw).1 = "" := by
  cases raw <;> first | rfl | simp [castToStringE] at h

/-- C1 counterexample: `IntSetting.SetValue("false")` with prior value
5 returns a non-nil error but does not leave the stored value
unchanged: the value becomes the cast's zero result 0, not the prior
default 5. -/
theorem setValue_failure_mutates_counterexample :
    (setValue (.vi 5) (.vstr "false")).2
        = some "unable to cast false of type string to int"
    ∧ (setValue (.vi 5) (.vstr "false")).1 = .vi 0
    ∧ SettingVal.vi 0 ≠ SettingVal.vi 5 := by
  refine ⟨?_, ?_, by simp⟩ <;>
    simp [setValue, castToIntE, parseIntStr, isDigitCh]

/-- C1 amended: for every modelled variant and raw input the cast
rejects, `SetValue` returns that non-nil error, but the stored value is
not left unchanged in general: the scalar variants execute
`*value, err = cast(raw)` and therefore store the cast's zero value
(0, false, "") in place of the prior one; only the int-slice variant's
early return on its interim string-slice failure preserves the prior
value. -/
theorem setValue_failure_reports_error_amended :
    (∀ (n : Int) (raw : RawValue) (msg : String), (castToIntE raw).2 = some msg →
       setValue (.vi n) raw = (.vi 0, some msg))
    ∧ (∀ (b : Bool) (raw : RawValue) (msg : String), (castToBoolE raw).2 = some msg →
       setValue (.vb b) raw = (.vb false, some msg))
    ∧ (∀ (s : String) (raw : RawValue) (msg : String), (castToStringE raw).2 = some msg →
       setValue (.vs s) raw = (.vs "", some msg))
    ∧ (∀ (old : List Int) (raw : RawValue) (msg : String),
        (castToStringSliceE raw).2 = some msg →
       setValue (.vil old) raw
         = (.vil old, some ("int slice parsing failed at interim string step: " ++ msg))) := by
  refine ⟨?_, ?_, ?_, ?_⟩
  · intro n raw msg h
    have h0 := castToIntE_error_zero raw msg h
    simp [setValue, h0, h]
  · intro b raw msg h
    have h0 := castToBoolE_error_false raw msg h
    simp [setValue, h0, h]
  · intro s raw msg h
    have h0 := castToStringE_error_empty raw msg h
    simp [setValue, h0, h]
  · intro old raw msg h
    rcases hsv : castToStringSliceE raw with ⟨t, e⟩
    rw [hsv] at h
    simp only at h
    subst h
    simp [setValue, hsv]

/-- C1 amended witness: the int variant at prior 5 on `"false"`, and
the int-slice variant at prior `[7]` on a map input (which fails the
interim string-slice step and keeps the prior value). -/
theorem setValue_failure_reports_error_amended_witness :
    setValue (.vi 5) (.vstr "false")
        = (.vi 0, some "unable to cast false of type string to int")
    ∧ setValue (.vil [7]) (.vmap [])
        = (.vil [7],
           some "int slice parsing failed at interim string step: unable to cast to []string") := by
  constructor
  · exact setValue_failure_reports_error_amended.1 5 (.vstr "false")
      "unable to cast false of type string to int"
      (by simp [castToIntE, parseIntStr, isDigitCh])
  · exact setValue_failure_reports_error_amended.2.2.2 [7] (.vmap [])
      "unable to cast to []string" (by simp [castToStringSliceE])

/-- C2 counterexample: `NewEnvSource ["A_B=x", "A_B_C=y"]` reports no
error, but the conflicting entry `A_B_C=y` is not wholly skipped: the
resulting map holds a binding derived from it — `Get(["a","c"])`
returns `"y"` — because the conflict `continue` skips only the
conflicting path segment, not the rest of the entry. -/
theorem envSource_conflict_counterexample :
    NewEnvSource ["A_B=x", "A_B_C=y"]
      = .ok [("a", .vmap [("b", .vstr "x"), ("c", .vstr "y")])]
    ∧ mapSourceGet [("a", .vmap [("b", .vstr "x"), ("c", .vstr "y")])] ["a", "c"]
      = some (.vstr "y") := by
  constructor
  · simp [NewEnvSource, envBuild, splitEq, splitChars, joinChars, splitUnderscore, envInsert,
      mapLookup, mapWrite, NewMapSource, lowerCaseMap, lowerCaseEntries, lowerCaseVal,
      lowerStr, lowerChar, Except.map]
  · simp [mapSourceGet, mapSourceGetGo, mapLookup, lowerStr, lowerChar]

/-- C2 amended: construction from `NAME=value` strings reports no error
on a leaf/subtree conflict, but the conflicting entry still
contributes: the walk skips only the conflicting segment and inserts
the entry's remaining segments relative to the deepest map it reached —
`A_B=x` then `A_B_C=y` yields `{a: {b: x, c: y}}`, and `A_B=value2`
then `A_B_C_D=value` yields `{a: {b: value2, c: {d: value}}}`. -/
theorem envSource_conflict_amended :
    NewEnvSource ["A_B=x", "A_B_C=y"]
      = .ok [("a", .vmap [("b", .vstr "x"), ("c", .vstr "y")])]
    ∧ NewEnvSource ["A_B=value2", "A_B_C_D=value"]
      = .ok [("a", .vmap [("b", .vstr "value2"), ("c", .vmap [("d", .vstr "value")])])] := by
  constructor <;>
    simp [NewEnvSource, envBuild, splitEq, splitChars, joinChars, splitUnderscore, envInsert,
      mapLookup, mapWrite, NewMapSource, lowerCaseMap, lowerCaseEntries, lowerCaseVal,
      lowerStr, lowerChar, Except.map]

/-- A field whose value is one of the modelled non-aggregate kinds. -/
def isLeafField : GoFieldT → Prop
  | (_, _, _, .leafInt _) => True
  | (_, _, _, .leafStr _) => True
  | (_, _, _, .leafBool _) => True
  | _ => False

/-- The setting a non-aggregate field converts to: the field name, its
`description` tag, and its current value as the default. -/
def leafSettingOf : GoFieldT → SettingE
  | (n, _, tag, .leafInt v) => ⟨n, tag, .vi v⟩
  | (n, _, tag, .leafStr v) => ⟨n, tag, .vs v⟩
  | (n, _, tag, .leafBool v) => ⟨n, tag, .vb v⟩
  | (n, _, tag, _) => ⟨n, tag, .vi 0⟩

/-- Helper: on a stack of non-aggregate fields the converter's work
loop appends exactly one setting per field, in stack order. -/
theorem convertFields_leaf_only (gname gdesc : String) (stack : List GoFieldT)
    (hleaf : ∀ f ∈ stack, isLeafField f) :
    ∀ (groups : List SettingGroup) (settings : List SettingE),
      convertFields gname gdesc stack groups settings
        = .ok (.mk gname gdesc groups (settings ++ stack.map leafSettingOf)) := by
  induction stack with
  | nil => intro groups settings; simp [convertFields]
  | cons f rest ih =>
    intro groups settings
    obtain ⟨n, an, tg, v⟩ := f
    have hf := hleaf _ (List.mem_cons_self _ _)
    have hrest : ∀ f ∈ rest, isLeafField f := fun f hm => hleaf f (List.mem_cons_of_mem _ hm)
    cases v with
    | leafInt x => simp [convertFields, ih hrest, leafSettingOf]
    | leafStr x => simp [convertFields, ih hrest, leafSettingOf]
    | leafBool x => simp [convertFields, ih hrest, leafSettingOf]
    | nilPtrTo ty => simp [isLeafField] at hf
    | unsupported k => simp [isLeafField] at hf
    | ptrStruct ty no dov fs => simp [isLeafField] at hf
    | structDirect ty no dov fs => simp [isLeafField] at hf

/-- C6: `Convert` gives one direct setting per non-aggregate field, one
child group per pointer-to-struct field named after that struct's type,
and flattens an embedded (anonymous) struct field into the parent
group: `{Value1 int; Inner *InnerType}` with `InnerType{Value2 string}`
yields one direct setting `Value1` and one child group `InnerType`
containing the setting `Value2`; an embedded field's own fields land
directly on the parent; and on any struct of non-aggregate fields the
converter emits exactly one setting per field (in its stack processing
order), seeded with the field values and tags. -/
theorem convert_struct_shape :
    (∀ (n : Int) (s : String),
      Convert (some (.ptrStruct "Outer" none none
        [("Value1", false, "", .leafInt n),
         ("Inner", false, "", .ptrStruct "InnerType" none none
            [("Value2", false, "", .leafStr s)])]))
      = .ok (.mk "Outer" "" [.mk "InnerType" "" [] [⟨"Value2", "", .vs s⟩]]
          [⟨"Value1", "", .vi n⟩]))
    ∧ (∀ (b : Bool) (s : String),
      Convert (some (.ptrStruct "Outer" none none
        [("Emb", true, "", .ptrStruct "EmbeddedType" none none
            [("V1", false, "", .leafStr s), ("V2", false, "", .leafBool b)])]))
      = .ok (.mk "Outer" "" [] [⟨"V2", "", .vb b⟩, ⟨"V1", "", .vs s⟩]))
    ∧ (∀ (tn : String) (fs : List GoFieldT), (∀ f ∈ fs, isLeafField f) →
      convertStructGo tn none none fs
        = .ok (.mk (nameFromType tn) "" [] (fs.reverse.map leafSettingOf))) := by
  refine ⟨?_, ?_, ?_⟩
  · intro n s
    simp [Convert, convertStructGo, convertFields, nameFromType, splitChars]
  · intro b s
    simp [Convert, convertStructGo, convertFields, nameFromType, splitChars]
  · intro tn fs hleaf
    have hrev : ∀ f ∈ fs.reverse, isLeafField f := by
      intro f hm
      exact hleaf f (List.mem_reverse.mp hm)
    simp [convertStructGo, convertFields_leaf_only _ _ _ hrev]

/-- C6 witness: a leaf-only struct with a package-qualified type name
converts to one setting per field. -/
theorem convert_struct_shape_witness :
    convertStructGo "pkg.T" none none [("V", false, "d", .leafInt 3)]
      = .ok (.mk "T" "" [] [⟨"V", "d", .vi 3⟩]) := by
  have h := convert_struct_shape.2.2 "pkg.T" [("V", false, "d", .leafInt 3)]
    (by simp [isLeafField])
  simpa [nameFromType, splitChars, leafSettingOf] using h

/-- C8: `VerifyComponent` rejects — individually — an object with no
`New` method, an object whose `New` does not take exactly two
arguments, and an object whose `New`'s second return is not named
`error`; and it returns nil only when a zero-argument single-return
`Settings` method and a two-argument two-return `New` method exist with
the context type accepted as `New`'s first argument, the `Settings`
return type accepted as `New`'s second argument, and an error-shaped
second return. -/
theorem verifyComponent_rejects_and_accepts :
    (∀ (conv : String → String → Bool) (ctxTy objTy : String)
       (ms : List (String × MethodSig)), lookupMethod ms "New" = none →
       (VerifyComponent conv ctxTy objTy ms).isSome = true)
    ∧ (∀ (conv : String → String → Bool) (ctxTy objTy : String)
       (ms : List (String × MethodSig)) (sig : MethodSig),
       lookupMethod ms "New" = some sig → sig.ins.length ≠ 2 →
       (VerifyComponent conv ctxTy objTy ms).isSome = true)
    ∧ (∀ (conv : String → String → Bool) (ctxTy objTy : String)
       (ms : List (String × MethodSig)) (sig : MethodSig) (o0 o1 : String),
       lookupMethod ms "New" = some sig → sig.outs = [o0, o1] → o1 ≠ "error" →
       (VerifyComponent conv ctxTy objTy ms).isSome = true)
    ∧ (∀ (conv : String → String → Bool) (ctxTy objTy : String)
       (ms : List (String × MethodSig)),
       VerifyComponent conv ctxTy objTy ms = none →
       ∃ sOut i0 i1 o0, lookupMethod ms "Settings" = some ⟨[], [sOut]⟩
         ∧ lookupMethod ms "New" = some ⟨[i0, i1], [o0, "error"]⟩
         ∧ conv ctxTy i0 = true ∧ conv sOut i1 = true) := by
  refine ⟨?_, ?_, ?_, ?_⟩
  · intro conv ctxTy objTy ms h
    cases hS : lookupMethod ms "Settings" <;> simp [VerifyComponent, hS, h]
  · intro conv ctxTy objTy ms sig h hlen
    cases hS : lookupMethod ms "Settings" with
    | none => simp [VerifyComponent, hS]
    | some sm =>
      obtain ⟨si, so⟩ := sm
      cases si with
      | cons a t => simp [VerifyComponent, hS, h]
      | nil =>
        match so with
        | [] => simp [VerifyComponent, hS, h]
        | smOut :: o2 :: orest => simp [VerifyComponent, hS, h]
        | [smOut] =>
          obtain ⟨ni, no⟩ := sig
          match ni, hlen with
          | [], _ => simp [VerifyComponent, hS, h]
          | [a], _ => simp [VerifyComponent, hS, h]
          | a :: b :: c :: t, _ => simp [VerifyComponent, hS, h]
          | [a, b], hlen => simp at hlen
  · intro conv ctxTy objTy ms sig o0 o1 h houts hne
    cases hS : lookupMethod ms "Settings" with
    | none => simp [VerifyComponent, hS]
    | some sm =>
      obtain ⟨si, so⟩ := sm
      cases si with
      | cons a t => simp [VerifyComponent, hS, h]
      | nil =>
        match so with
        | [] => simp [VerifyComponent, hS, h]
        | smOut :: o2 :: orest => simp [VerifyComponent, hS, h]
        | [smOut] =>
          obtain ⟨ni, no⟩ := sig
          subst houts
          match ni with
          | [] => simp [VerifyComponent, hS, h]
          | [a] => simp [VerifyComponent, hS, h]
          | a :: b :: c :: t => simp [VerifyComponent, hS, h]
          | [a, b] =>
            simp only [VerifyComponent, hS, h]
            split_ifs <;> simp_all
  · intro conv ctxTy objTy ms h
    cases hS : lookupMethod ms "Settings" with
    | none => simp [VerifyComponent, hS] at h
    | some sm =>
      cases hN : lookupMethod ms "New" with
      | none => simp [VerifyComponent, hS, hN] at h
      | some nm =>
        obtain ⟨si, so⟩ := sm
        cases si with
        | cons a t => simp [VerifyComponent, hS, hN] at h
        | nil =>
          match so with
          | [] => simp [VerifyComponent, hS, hN] at h
          | smOut :: o2 :: orest => simp [VerifyComponent, hS, hN] at h
          | [smOut] =>
            obtain ⟨ni, no⟩ := nm
            match ni with
            | [] => simp [VerifyComponent, hS, hN] at h
            | [a] => simp [VerifyComponent, hS, hN] at h
            | a :: b :: c :: t => simp [VerifyComponent, hS, hN] at h
            | [i0, i1] =>
              match no with
              | [] => simp [VerifyComponent, hS, hN] at h
              | [o] => simp [VerifyComponent, hS, hN] at h
              | o :: o2 :: o3 :: t => simp [VerifyComponent, hS, hN] at h
              | [o0, o1] =>
                simp only [VerifyComponent, hS, hN] at h
                split_ifs at h with h1 h2 h3 <;> try simp at h
                have hc1 : conv ctxTy i0 = true := by simpa using h1
                have hc2 : conv smOut i1 = true := by simpa using h2
                have ho : o1 = "error" := by simpa using h3
                subst ho
                exact ⟨smOut, i0, i1, o0, rfl, rfl, hc1, hc2⟩

/-- C8 witness: concrete instances — a method set without `New`, a
`New` of one argument, a `New` whose second return is `int`, and a
fully conforming method set. -/
theorem verifyComponent_rejects_and_accepts_witness :
    (VerifyComponent (fun _ _ => true) "Context" "C"
      [("Settings", ⟨[], ["*Config"]⟩)]).isSome = true
    ∧ (VerifyComponent (fun _ _ => true) "Context" "C"
      [("Settings", ⟨[], ["*Config"]⟩), ("New", ⟨["*Config"], ["*Item", "error"]⟩)]).isSome = true
    ∧ (VerifyComponent (fun _ _ => true) "Context" "C"
      [("Settings", ⟨[], ["*Config"]⟩),
       ("New", ⟨["Context", "*Config"], ["*Item", "int"]⟩)]).isSome = true
    ∧ lookupMethod [("Settings", (⟨[], ["*Config"]⟩ : MethodSig)),
        ("New", ⟨["Context", "*Config"], ["*Item", "error"]⟩)] "New"
          = some ⟨["Context", "*Config"], ["*Item", "error"]⟩ := by
  refine ⟨?_, ?_, ?_, ?_⟩
  · exact verifyComponent_rejects_and_accepts.1 _ _ _ _ (by simp [lookupMethod])
  · exact verifyComponent_rejects_and_accepts.2.1 _ _ _ _ ⟨["*Config"], ["*Item", "error"]⟩
      (by simp [lookupMethod]) (by simp)
  · exact verifyComponent_rejects_and_accepts.2.2.1 _ _ _ _
      ⟨["Context", "*Config"], ["*Item", "int"]⟩ "*Item" "int"
      (by simp [lookupMethod]) rfl (by simp)
  · obtain ⟨sOut, i0, i1, o0, hS, hN, h1, h2⟩ :=
      verifyComponent_rejects_and_accepts.2.2.2 (fun _ _ => true) "Context" "C"
        [("Settings", ⟨[], ["*Config"]⟩),
         ("New", ⟨["Context", "*Config"], ["*Item", "error"]⟩)]
        (by simp [VerifyComponent, lookupMethod])
    have h3 : lookupMethod [("Settings", (⟨[], ["*Config"]⟩ : MethodSig)),
        ("New", ⟨["Context", "*Config"], ["*Item", "error"]⟩)] "New"
          = some ⟨["Context", "*Config"], ["*Item", "error"]⟩ := by simp [lookupMethod]
    rw [hN, Option.some.inj (hN.symm.trans h3)]

/-- C10: `NewComponent` writes through the destination pointer exactly
once and only on the fully successful path: every call returning a
non-nil error (non-pointer or nil destination, verification failure,
conversion failure, load failure, constructor error, or a
non-convertible result) leaves the destination as it was, and a nil
error means the destination was a valid pointer whose cell now holds
the result the whole pipeline produced. -/
theorem newComponent_writes_once (conv : String → String → Bool) (ctxTy : String)
    (src : Source) (c : ComponentObj) (dst : Destination) :
    ((NewComponent conv ctxTy src c dst).1 ≠ none →
      (NewComponent conv ctxTy src c dst).2 = dst)
    ∧ ((NewComponent conv ctxTy src c dst).1 = none →
      ∃ dTy cell r g gs', dst = .ptr dTy cell
        ∧ (NewComponent conv ctxTy src c dst).2 = .ptr dTy r
        ∧ VerifyComponent conv ctxTy c.objTy c.methods = none
        ∧ Convert c.settingsVal = .ok g
        ∧ LoadGroups src [g] = .ok gs'
        ∧ c.newFn gs' = .ok r
        ∧ conv r.tyName dTy = true) := by
  cases dst with
  | nonPtr ty => exact ⟨fun _ => rfl, fun h => by simp [NewComponent] at h⟩
  | nilPtr ty => exact ⟨fun _ => rfl, fun h => by simp [NewComponent] at h⟩
  | ptr dTy cell =>
    cases hv : VerifyComponent conv ctxTy c.objTy c.methods with
    | some e => exact ⟨fun _ => by simp [NewComponent, hv], fun h => by simp [NewComponent, hv] at h⟩
    | none =>
      cases hc : Convert c.settingsVal with
      | error e =>
        exact ⟨fun _ => by simp [NewComponent, hv, hc],
          fun h => by simp [NewComponent, hv, hc] at h⟩
      | ok g =>
        cases hl : LoadGroups src [g] with
        | error e =>
          exact ⟨fun _ => by simp [NewComponent, hv, hc, hl],
            fun h => by simp [NewComponent, hv, hc, hl] at h⟩
        | ok gs' =>
          cases hn : c.newFn gs' with
          | error e =>
            exact ⟨fun _ => by simp [NewComponent, hv, hc, hl, hn],
              fun h => by simp [NewComponent, hv, hc, hl, hn] at h⟩
          | ok r =>
            by_cases hcv : conv r.tyName dTy = true
            · refine ⟨fun hne => absurd ?_ hne, fun _ => ?_⟩
              · simp [NewComponent, hv, hc, hl, hn, hcv]
              · exact ⟨dTy, cell, r, g, gs', rfl,
                  by simp [NewComponent, hv, hc, hl, hn, hcv], rfl, rfl, hl, hn, hcv⟩
            · have hcv' : conv r.tyName dTy = false := by
                cases hb : conv r.tyName dTy
                · rfl
                · exact absurd hb hcv
              refine ⟨fun _ => by simp [NewComponent, hv, hc, hl, hn, hcv'], fun h => ?_⟩
              simp [NewComponent, hv, hc, hl, hn, hcv'] at h

/-- A concrete conforming component used to exercise `NewComponent`:
a `Settings`/`New` method pair, a one-field configuration struct, and a
constructor producing an `Item`. -/
def demoComponent : ComponentObj where
  objTy := "C"
  methods := [("Settings", ⟨[], ["*Config"]⟩),
              ("New", ⟨["Context", "*Config"], ["*Item", "error"]⟩)]
  settingsVal := some (.ptrStruct "Config" none none [("Value", false, "", .leafStr "")])
  newFn := fun _ => .ok ⟨"Item", "built"⟩

/-- The trivially-true convertibility relation, for concrete runs. -/
def convAll : String → String → Bool := fun _ _ => true

/-- The always-empty source, for concrete runs. -/
def emptySource : Source := fun _ => none

/-- C10 witness: a non-pointer destination is returned unchanged with
an error, and a fully successful concrete run stores the constructor's
result in the destination cell. -/
theorem newComponent_writes_once_witness :
    ((NewComponent convAll "Context" emptySource demoComponent (.nonPtr "Item")).2
        = .nonPtr "Item")
    ∧ ((NewComponent convAll "Context" emptySource demoComponent
        (.ptr "Item" ⟨"Item", "zero"⟩)).2 = .ptr "Item" ⟨"Item", "built"⟩) := by
  constructor
  · exact (newComponent_writes_once convAll "Context" emptySource demoComponent
      (.nonPtr "Item")).1 (by simp [NewComponent])
  · obtain ⟨dTy, cell, r, g, gs', hdst, hsnd, hv, hc, hl, hn, hcv⟩ :=
      (newComponent_writes_once convAll "Context" emptySource demoComponent
        (.ptr "Item" ⟨"Item", "zero"⟩)).2
        (by simp [NewComponent, VerifyComponent, lookupMethod, Convert, convertStructGo,
          convertFields, nameFromType, splitChars, LoadGroups, loadChildGroups, loadGroupAt,
          SettingGroup.name, Load, prefixSourceGet, Except.map, demoComponent, convAll,
          emptySource])
    cases hdst
    have hr : (⟨"Item", "built"⟩ : GoRes) = r := by
      have : Except.ok (ε := String) (⟨"Item", "built"⟩ : GoRes) = .ok r := hn
      exact Except.ok.inj this
    rw [hsnd, ← hr]

end SettingsV
